import Mathlib

/-
Verification of the Portfolio Valuation & Threshold-Alert Engine
(stock_position.py and stock_monitor.py) against its specification.

The Python code is shallowly embedded: Notion entries become the `Entry`
structure, Python dicts become association lists with first-match lookup
after prepending inserts, Python floats become rationals, Python `round`
(banker's rounding) becomes `pyRound`, and the exception control flow of
`calculate_assets` becomes an `Except` value whose error component carries
the in-place-mutated record list that the `except` clause returns.
-/

/-- A Python property value as read from Notion: a number, a string, or None. -/
inductive PyVal where
  | num (q : ℚ)
  | str (s : String)
  | pynone
deriving DecidableEq, Repr

/-- isinstance(x, (int, float)) -/
def isNumB : PyVal → Bool
  | PyVal.num _ => true
  | _ => false

/-- float(x) if isinstance(x, (int, float)) else 0.0 -/
def pyNumD : PyVal → ℚ
  | PyVal.num q => q
  | _ => 0

/-- One ledger record, as built by `query_notion_entries` plus the derived
fields that `main`/`calculate_assets` add in place (absent = key not set). -/
structure Entry where
  id : String
  name : String
  is_stock : Bool
  shares : PyVal
  current_assets : PyVal
  currency : Option String := Option.none
  price : Option ℚ := Option.none
  usd_price : Option ℚ := Option.none
  new_assets : Option ℚ := Option.none
  longName : Option String := Option.none
  new_ratio : Option ℚ := Option.none
deriving DecidableEq, Repr

/-- One quote returned by `fetch_stock_data`. -/
structure StockInfo where
  price : ℚ
  longName : String
deriving DecidableEq, Repr

/-- Python dict insert: the new binding shadows any older one. -/
def dset {α : Type} (m : List (String × α)) (k : String) (v : α) : List (String × α) :=
  (k, v) :: m

/-- Python dict lookup (newest binding wins). -/
def dget {α : Type} (m : List (String × α)) (k : String) : Option α :=
  (m.find? (fun p => p.1 == k)).map (fun p => p.2)

/-- CASH_NAME = '现金' -/
def CASH_NAME : String := "现金"

/-- NET_ASSET_NAME = '净资产' -/
def NET_ASSET_NAME : String := "净资产"

/-- entry['name'] == CASH_NAME -/
def isCash (e : Entry) : Bool := e.name == CASH_NAME

/-- entry['name'] == NET_ASSET_NAME -/
def isNetAsset (e : Entry) : Bool := e.name == NET_ASSET_NAME

/-- Round-half-to-even on rationals, the semantics of Python `round` for
exact values. -/
def roundHalfEven (x : ℚ) : ℤ :=
  if x - ⌊x⌋ < 1/2 then ⌊x⌋
  else if 1/2 < x - ⌊x⌋ then ⌊x⌋ + 1
  else if ⌊x⌋ % 2 = 0 then ⌊x⌋ else ⌊x⌋ + 1

/-- Python `round(x, k)` for nonnegative `k`. -/
def pyRound (x : ℚ) (k : ℕ) : ℚ := (roundHalfEven (x * 10 ^ k) : ℚ) / 10 ^ k

/-- Python's `str.endswith`, used on instrument codes. -/
def strEndsWith (s suf : String) : Bool :=
  suf.data == s.data.drop (s.data.length - suf.data.length)

/-- determine_currency: currency from the instrument code suffix. -/
def determine_currency (code : String) : String :=
  if strEndsWith code ".HK" then "HKD"
  else if strEndsWith code ".SZ" || strEndsWith code ".SH" then "CNY"
  else if strEndsWith code ".O" || strEndsWith code ".N" then "USD"
  else if strEndsWith code ".T" then "JPY"
  else "USD"

/-- The pure response-parsing core of `fetch_stock_data`: for each table row
with a nonempty code and a nonempty latest list, store the last element
rounded to 4 decimals (and the code as a placeholder long name). -/
def fetch_stock_data_core (tables : List (String × List ℚ)) : List (String × StockInfo) :=
  tables.foldl
    (fun m t =>
      if t.1 == "" || t.2.isEmpty then m
      else dset m t.1 ⟨pyRound ((t.2.getLast?).getD 0) 4, t.1⟩)
    []

/-- Splits a thscode as `split('.')[0]` and then `pair[:3], pair[3:]`. -/
def fxParse (ths : String) : String × String :=
  let pair := ths.data.takeWhile (fun c => c ≠ '.')
  (String.mk (pair.take 3), String.mk (pair.drop 3))

/-- Processing of one FX table row inside `fetch_fx_rates`; division by a
zero rate raises ZeroDivisionError, modelled as the error case. -/
def fxStep (m : List (String × ℚ)) (t : String × List ℚ) : Except Unit (List (String × ℚ)) :=
  if t.1 == "" || t.2.isEmpty then Except.ok m
  else
    let rate := (t.2.getLast?).getD 0
    let bq := fxParse t.1
    if bq.2 == "USD" then Except.ok (dset m bq.1 rate)
    else if rate == 0 then Except.error ()
    else Except.ok (dset m bq.2 (1 / rate))

/-- The pure response-parsing core of `fetch_fx_rates`: fold `fxStep` over
the table rows, add `USD → 1.0`, and return the empty dict if the loop
raised (the outer `except` clause). -/
def fetch_fx_rates_core (tables : List (String × List ℚ)) : List (String × ℚ) :=
  match tables.foldlM fxStep ([] : List (String × ℚ)) with
  | Except.error _ => []
  | Except.ok m => dset m "USD" 1

/-- entry['new_assets'] = v -/
def setNA (v : ℚ) (e : Entry) : Entry := { e with new_assets := some v }

/-- Mutate the first list element satisfying `p` (the object that
`next(e for e in entries if ...)` aliases). -/
def updateFirst (p : Entry → Bool) (f : Entry → Entry) : List Entry → List Entry
  | [] => []
  | e :: r => if p e then f e :: r else e :: updateFirst p f r

/-- The net effect of one iteration of the stock loop of `calculate_assets`
on its entry: `new_assets` is zeroed, and when a quote and the currency are
both available the price fields and the unrounded USD asset value are set. -/
def procStock (sd : List (String × StockInfo)) (fx : List (String × ℚ)) (e : Entry) : Entry :=
  if e.is_stock then
    match dget sd e.name, e.currency with
    | some info, some cur =>
      { e with price := some info.price,
               usd_price := some (pyRound (info.price * ((dget fx cur).getD 1)) 4),
               new_assets := some (info.price * ((dget fx cur).getD 1) * pyNumD e.shares),
               longName := some info.longName }
    | _, _ => { e with new_assets := some 0 }
  else e

/-- The contribution of one entry to `total_stock_assets`. -/
def contribOf (sd : List (String × StockInfo)) (fx : List (String × ℚ)) (e : Entry) : ℚ :=
  if e.is_stock then
    match dget sd e.name, e.currency with
    | some info, some cur => info.price * ((dget fx cur).getD 1) * pyNumD e.shares
    | _, _ => 0
  else 0

/-- The stock loop of `calculate_assets`, iterating the whole entry list and
processing the `is_stock` entries in place.  A stock entry that has a quote
but no `'currency'` key raises KeyError: the error value carries the list as
mutated so far (`new_assets` already zeroed on the failing entry, entries
after it untouched). -/
def stockLoop (sd : List (String × StockInfo)) (fx : List (String × ℚ)) :
    List Entry → Except (List Entry) (List Entry × ℚ)
  | [] => Except.ok ([], 0)
  | e :: rest =>
    if e.is_stock then
      match dget sd e.name, e.currency with
      | some _, Option.none => Except.error ({ e with new_assets := some 0 } :: rest)
      | _, _ =>
        match stockLoop sd fx rest with
        | Except.error l => Except.error (procStock sd fx e :: l)
        | Except.ok (l, t) => Except.ok (procStock sd fx e :: l, t + contribOf sd fx e)
    else
      match stockLoop sd fx rest with
      | Except.error l => Except.error (e :: l)
      | Except.ok (l, t) => Except.ok (e :: l, t)

/-- entry['new_ratio'] assignment of the ratio loop. -/
def setRatio (net : ℚ) (e : Entry) : Entry :=
  { e with new_ratio := some (if net ≠ 0 then pyRound ((e.new_assets).getD 0 / net) 4 else 0) }

/-- The body of `calculate_assets` with its exception flow made explicit: the ok case
carries the fully valued list together with `new_net_value`; the error case
carries the list exactly as mutated when the exception was raised (which is
what the `except` clause then returns). -/
def calcAssetsE (entries : List Entry) (sd : List (String × StockInfo))
    (fx : List (String × ℚ)) : Except (List Entry) (List Entry × ℚ) :=
  match entries.find? isCash with
  | Option.none => Except.error entries
  | some cash =>
    match cash.current_assets with
    | PyVal.num cashAssets =>
      match stockLoop sd fx (updateFirst isCash (setNA cashAssets) entries) with
      | Except.error l => Except.error l
      | Except.ok (l, total) =>
        let net := cashAssets + total
        Except.ok (((updateFirst isNetAsset (setNA net) l).map (setRatio net)), net)
    | _ => Except.error entries

/-- Embedding of `calculate_assets`: both the normal return and the `except` clause
return the (shared, possibly mutated) entry list. -/
def calculate_assets (entries : List Entry) (sd : List (String × StockInfo))
    (fx : List (String × ℚ)) : List Entry :=
  match calcAssetsE entries sd fx with
  | Except.error l => l
  | Except.ok (l, _) => l

/-- The cash validation that `calculate_assets` turns into ValueError. -/
def cashInvalid (entries : List Entry) : Bool :=
  match entries.find? isCash with
  | Option.none => true
  | some c => !(isNumB c.current_assets)

/-- One attempted PATCH against the record store. -/
inductive WriteOp where
  | props (pid : String) (price usd_price : ℚ) (currency : String)
  | assets (pid : String) (assets ratio : ℚ)
deriving DecidableEq, Repr

/-- Is this write an asset/ratio write (`update_asset_properties`)? -/
def isAssetsWrite : WriteOp → Bool
  | WriteOp.assets _ _ _ => true
  | _ => false

/-- Dispatch outcome of `update_notion_properties` per page id. -/
structure Oracles where
  propsOk : String → Bool

/-- The writes attempted for one entry by the update loop of `main`
(stock_position.py).  A stock entry without a quote is skipped.  A stock
entry with a quote always gets a `props` write attempt; the `assets` write
is attempted only when the `props` write succeeded (short-circuit `and`)
and both `new_assets` and `new_ratio` exist (otherwise the KeyError while
evaluating the arguments is caught by the per-entry handler).  A CASH or
NET_ASSET entry gets an `assets` write attempt only when both derived keys
exist (the arguments are evaluated before the call). -/
def entryWrites (sd : List (String × StockInfo)) (oc : Oracles) (e : Entry) : List WriteOp :=
  if e.is_stock then
    match dget sd e.name with
    | Option.none => []
    | some _ =>
      let w := WriteOp.props e.id ((e.price).getD 0) ((e.usd_price).getD 0) ((e.currency).getD "USD")
      if oc.propsOk e.id then
        match e.new_assets, e.new_ratio with
        | some a, some r => [w, WriteOp.assets e.id (pyRound a 2) (pyRound r 4)]
        | _, _ => [w]
      else [w]
  else if isCash e || isNetAsset e then
    match e.new_assets, e.new_ratio with
    | some a, some r => [WriteOp.assets e.id (pyRound a 2) (pyRound r 4)]
    | _, _ => []
  else []

/-- The currency-inference preprocessing of `main`: every stock entry gets
`entry['currency'] = determine_currency(code)`. -/
def prep (entries : List Entry) : List Entry :=
  entries.map
    (fun e => if e.is_stock then { e with currency := some (determine_currency e.name) } else e)

/-- The full write trace of one valuation run of `main`: empty-entries
early return, per-stock currency inference, `calculate_assets`, then the
update loop. -/
def mainRun (entries : List Entry) (sd : List (String × StockInfo))
    (fx : List (String × ℚ)) (oc : Oracles) : List WriteOp :=
  if entries.isEmpty then []
  else (calculate_assets (prep entries) sd fx).flatMap (entryWrites sd oc)

/-- One record of the monitoring database (stock_monitor.py). -/
structure MonRecord where
  page_id : String
  name : String
  symbol : String
  high_line : Option ℚ
  low_line : Option ℚ
deriving DecidableEq, Repr

/-- Externally observable actions of one monitor iteration: an attempted
last-price write, an attempted alert dispatch (true = high breach), and an
attempted trigger-line write.  `update_notion_property` rounds every number
to 2 decimals before the PATCH. -/
inductive MonEvent where
  | writeLast (v : ℚ)
  | alert (high : Bool)
  | writeHigh (v : ℚ)
  | writeLow (v : ℚ)
deriving DecidableEq, Repr

/-- Collaborator outcomes for one monitor iteration: the last-price write,
the alert e-mail, and the trigger-line write. -/
structure MonOracles where
  lastOk : Bool
  emailOk : Bool
  lineOk : Bool
deriving DecidableEq, Repr

/-- One iteration of the per-record loop of `main` (stock_monitor.py):
missing price: skip; write last price, on failure skip; missing either
line: skip; price above the high line: alert, and on successful dispatch
attempt the `price * 1.01` ratchet write; else price below the low line:
alert, and on success attempt the `price * 0.99` ratchet write. -/
def monitorStep (r : MonRecord) (price : Option ℚ) (oc : MonOracles) : List MonEvent :=
  match price with
  | Option.none => []
  | some p =>
    if oc.lastOk then
      match r.high_line, r.low_line with
      | some hi, some lo =>
        if hi < p then
          MonEvent.writeLast (pyRound p 2) :: MonEvent.alert true ::
            (if oc.emailOk then [MonEvent.writeHigh (pyRound (p * (101/100)) 2)] else [])
        else if p < lo then
          MonEvent.writeLast (pyRound p 2) :: MonEvent.alert false ::
            (if oc.emailOk then [MonEvent.writeLow (pyRound (p * (99/100)) 2)] else [])
        else [MonEvent.writeLast (pyRound p 2)]
      | _, _ => [MonEvent.writeLast (pyRound p 2)]
    else [MonEvent.writeLast (pyRound p 2)]

/-- The identity of a record: storage key and instrument name. -/
def keyOf (e : Entry) : String × String := (e.id, e.name)

/-- The entry list a `calculate_assets` caller receives, ok or error. -/
def resList : Except (List Entry) (List Entry × ℚ) → List Entry
  | Except.error l => l
  | Except.ok (l, _) => l

/-- The value of `total_stock_assets` in a valuation run, as a function of the inputs. -/
def totalStockAssets (entries : List Entry) (sd : List (String × StockInfo))
    (fx : List (String × ℚ)) : ℚ :=
  (entries.map (contribOf sd fx)).sum

/-- The fully valued list a successful `calculate_assets` run returns. -/
def valuedOf (entries : List Entry) (sd : List (String × StockInfo)) (fx : List (String × ℚ))
    (q : ℚ) : List Entry :=
  (updateFirst isNetAsset (setNA (q + totalStockAssets entries sd fx))
      ((updateFirst isCash (setNA q) entries).map (procStock sd fx))).map
    (setRatio (q + totalStockAssets entries sd fx))

/-- The sum of `new_assets` over the stock records of a list. -/
def stockAssetSum (l : List Entry) : ℚ :=
  (l.map (fun e => if e.is_stock then (e.new_assets).getD 0 else 0)).sum

/-- The run of §8's end-to-end scenario: cash, a NET_ASSET row, and one
USD stock (10 shares), used as the concrete instance for the valuation
theorems. -/
def exEntries : List Entry :=
  [{ id := "c", name := CASH_NAME, is_stock := false, shares := PyVal.num 0,
     current_assets := PyVal.num 10000 },
   { id := "n", name := NET_ASSET_NAME, is_stock := false, shares := PyVal.num 0,
     current_assets := PyVal.num 0 },
   { id := "a", name := "AAPL", is_stock := true, shares := PyVal.num 10,
     current_assets := PyVal.num 0, currency := some "USD" }]

/-- Quotes for the concrete valuation instance. -/
def exSd : List (String × StockInfo) := [("AAPL", ⟨150, "AAPL"⟩)]

/-- Input on which the valuation pass raises mid-loop: a valid CASH record
followed by a stock that has a quote but no `'currency'` key. -/
def cexEntries : List Entry :=
  [{ id := "c1", name := CASH_NAME, is_stock := false, shares := PyVal.num 0,
     current_assets := PyVal.num 100 },
   { id := "s1", name := "XSTK", is_stock := true, shares := PyVal.num 5,
     current_assets := PyVal.pynone }]

/-- Quote table for the mid-loop-exception input. -/
def cexSd : List (String × StockInfo) := [("XSTK", ⟨7, "XSTK"⟩)]

/-- A record set with no CASH record at all: one quoted stock. -/
def noCashEntries : List Entry :=
  [{ id := "p1", name := "AAPL", is_stock := true, shares := PyVal.num 1,
     current_assets := PyVal.num 0 }]

/-- All record-store writes succeed. -/
def ocTrue : Oracles := ⟨fun _ => true⟩

/-- Input for the fetch-time-rounding counterexample: cash of 3 plus one
USD stock with one share whose raw quote is 1.00001. -/
def roundEntries : List Entry :=
  [{ id := "c1", name := CASH_NAME, is_stock := false, shares := PyVal.num 0,
     current_assets := PyVal.num 3 },
   { id := "s1", name := "AAPL", is_stock := true, shares := PyVal.num 1,
     current_assets := PyVal.num 0, currency := some "USD" }]

/-- A fully valued stock entry, used to instantiate the write-payload part
of the rounding theorem. -/
def valuedStockEntry : Entry :=
  { id := "s1", name := "AAPL", is_stock := true, shares := PyVal.num 1,
    current_assets := PyVal.num 0, currency := some "USD", price := some 1,
    usd_price := some 1, new_assets := some 1, new_ratio := some (1/4) }

/-- The sum of `new_assets` over every record that is not the NET_ASSET
sentinel. -/
def nonNetSum (l : List Entry) : ℚ :=
  ((l.filter (fun e => !(isNetAsset e))).map (fun e => (e.new_assets).getD 0)).sum

lemma roundHalfEven_close (x : ℚ) : |(roundHalfEven x : ℚ) - x| ≤ 1/2 := by
  have h1 : ((⌊x⌋ : ℤ) : ℚ) ≤ x := Int.floor_le x
  have h2 : x < (⌊x⌋ : ℤ) + 1 := Int.lt_floor_add_one x
  rw [roundHalfEven]
  split_ifs <;> rw [abs_le] <;> constructor <;> push_cast <;> linarith

lemma pyRound_sub_abs_le (x : ℚ) (k : ℕ) : |pyRound x k - x| ≤ 1 / (2 * 10 ^ k) := by
  have hk : (0 : ℚ) < 10 ^ k := by positivity
  have hx : pyRound x k - x = ((roundHalfEven (x * 10 ^ k) : ℚ) - x * 10 ^ k) / 10 ^ k := by
    rw [pyRound]
    field_simp
    ring
  rw [hx, abs_div, abs_of_pos hk]
  rw [div_le_iff₀ hk]
  have := roundHalfEven_close (x * 10 ^ k)
  calc |(roundHalfEven (x * 10 ^ k) : ℚ) - x * 10 ^ k| ≤ 1/2 := this
    _ = 1 / (2 * 10 ^ k) * 10 ^ k := by field_simp
    _ ≤ 1 / (2 * 10 ^ k) * 10 ^ k := le_refl _

lemma pyRound_ge (x : ℚ) (k : ℕ) : x - 1 / (2 * 10 ^ k) ≤ pyRound x k := by
  have h := pyRound_sub_abs_le x k
  rw [abs_le] at h
  linarith [h.1]

lemma pyRound_le (x : ℚ) (k : ℕ) : pyRound x k ≤ x + 1 / (2 * 10 ^ k) := by
  have h := pyRound_sub_abs_le x k
  rw [abs_le] at h
  linarith [h.2]

lemma pyRound_eval (x : ℚ) (k : ℕ) (n : ℤ) (h1 : (n : ℚ) ≤ x * 10 ^ k)
    (h2 : x * 10 ^ k < n + 1/2) : pyRound x k = n / 10 ^ k := by
  have hf : ⌊x * 10 ^ k⌋ = n := by
    rw [Int.floor_eq_iff]
    exact ⟨h1, by linarith⟩
  rw [pyRound, roundHalfEven, hf, if_pos (by linarith)]

/-- C9: if the write of the freshly observed last price fails, breach
detection for that record is skipped for the run: the trace holds only the
attempted last-price write — no alert is dispatched and no trigger line is
ratcheted, whatever the price. -/
theorem monitor_last_write_failure_skips_record (r : MonRecord) (p : ℚ) (oc : MonOracles)
    (h : oc.lastOk = false) :
    monitorStep r (some p) oc = [MonEvent.writeLast (pyRound p 2)] := by
  simp [monitorStep, h]

theorem monitor_last_write_failure_skips_record_witness :
    monitorStep ⟨"p1", "AAPL", "apple", some 1, some 200⟩ (some 500) ⟨false, true, true⟩
      = [MonEvent.writeLast (pyRound 500 2)] :=
  monitor_last_write_failure_skips_record _ _ _ rfl

/-- C4: for a monitored record with both trigger lines present, a
trigger-line ratchet write is attempted iff a breach alert was attempted
and its dispatch succeeded; in particular when dispatch fails no high or
low line write happens. -/
theorem monitor_ratchet_iff_dispatch (r : MonRecord) (p : ℚ) (oc : MonOracles) (hi lo : ℚ)
    (hh : r.high_line = some hi) (hl : r.low_line = some lo) :
    (((∃ v, MonEvent.writeHigh v ∈ monitorStep r (some p) oc) ∨
       (∃ v, MonEvent.writeLow v ∈ monitorStep r (some p) oc)) ↔
      ((MonEvent.alert true ∈ monitorStep r (some p) oc ∨
        MonEvent.alert false ∈ monitorStep r (some p) oc) ∧ oc.emailOk = true))
    ∧ (oc.emailOk = false →
        ∀ v, MonEvent.writeHigh v ∉ monitorStep r (some p) oc ∧
             MonEvent.writeLow v ∉ monitorStep r (some p) oc) := by
  obtain ⟨lastOk, emailOk, lineOk⟩ := oc
  simp only [monitorStep, hh, hl]
  cases lastOk <;> cases emailOk <;>
    by_cases h1 : hi < p <;> by_cases h2 : p < lo <;>
      simp [h1, h2]

theorem monitor_ratchet_iff_dispatch_witness :
    (((∃ v, MonEvent.writeHigh v ∈ monitorStep ⟨"p1", "AAPL", "a", some 1, some 0⟩ (some 2) ⟨true, false, true⟩) ∨
       (∃ v, MonEvent.writeLow v ∈ monitorStep ⟨"p1", "AAPL", "a", some 1, some 0⟩ (some 2) ⟨true, false, true⟩)) ↔
      ((MonEvent.alert true ∈ monitorStep ⟨"p1", "AAPL", "a", some 1, some 0⟩ (some 2) ⟨true, false, true⟩ ∨
        MonEvent.alert false ∈ monitorStep ⟨"p1", "AAPL", "a", some 1, some 0⟩ (some 2) ⟨true, false, true⟩) ∧
        MonOracles.emailOk ⟨true, false, true⟩ = true))
    ∧ (MonOracles.emailOk ⟨true, false, true⟩ = false →
        ∀ v, MonEvent.writeHigh v ∉ monitorStep ⟨"p1", "AAPL", "a", some 1, some 0⟩ (some 2) ⟨true, false, true⟩ ∧
             MonEvent.writeLow v ∉ monitorStep ⟨"p1", "AAPL", "a", some 1, some 0⟩ (some 2) ⟨true, false, true⟩) :=
  monitor_ratchet_iff_dispatch _ 2 _ 1 0 rfl rfl

/-- C5 as stated is false: at price P = 0.1 against a high line of 0.05,
the dispatched high breach persists round(0.1 * 1.01, 2) = 0.1, which is
not strictly greater than P. -/
theorem monitor_ratchet_not_strict_cex :
    monitorStep ⟨"p1", "X", "X", some (1/20), some 0⟩ (some (1/10)) ⟨true, true, true⟩
      = [MonEvent.writeLast (1/10), MonEvent.alert true, MonEvent.writeHigh (1/10)]
    ∧ ¬ ((1/10 : ℚ) < 1/10) := by
  have e1 : pyRound (1/10 : ℚ) 2 = 1/10 := by
    rw [pyRound_eval (1/10 : ℚ) 2 10 (by norm_num) (by norm_num)]
    norm_num
  have e2 : pyRound ((1/10 : ℚ) * (101/100)) 2 = 1/10 := by
    rw [pyRound_eval ((1/10 : ℚ) * (101/100)) 2 10 (by norm_num) (by norm_num)]
    norm_num
  refine ⟨?_, by norm_num⟩
  simp only [monitorStep, e1, e2]
  norm_num

/-- C5 amended: after a confirmed breach the persisted trigger line equals
`round(P * 1.01, 2)` (resp. `round(P * 0.99, 2)`), and for prices above
1/2 the rounded high line is strictly greater than P (resp. the rounded
low line strictly smaller); for P ≤ 1/2 the 2-decimal rounding can cancel
the 1% step, as the counterexample at P = 0.1 shows. -/
theorem monitor_ratchet_value_and_bound (r : MonRecord) (p : ℚ) (oc : MonOracles) (hi lo : ℚ)
    (hh : r.high_line = some hi) (hl : r.low_line = some lo)
    (hlast : oc.lastOk = true) (hmail : oc.emailOk = true) :
    (hi < p →
      MonEvent.writeHigh (pyRound (p * (101/100)) 2) ∈ monitorStep r (some p) oc ∧
        (1/2 < p → p < pyRound (p * (101/100)) 2)) ∧
    (¬ hi < p → p < lo →
      MonEvent.writeLow (pyRound (p * (99/100)) 2) ∈ monitorStep r (some p) oc ∧
        (1/2 < p → pyRound (p * (99/100)) 2 < p)) := by
  constructor
  · intro h1
    refine ⟨by simp [monitorStep, hh, hl, hlast, hmail, h1], ?_⟩
    intro hp
    have hb := pyRound_ge (p * (101/100)) 2
    norm_num at hb
    linarith
  · intro h1 h2
    refine ⟨by simp [monitorStep, hh, hl, hlast, hmail, h1, h2], ?_⟩
    intro hp
    have hb := pyRound_le (p * (99/100)) 2
    norm_num at hb
    linarith

theorem monitor_ratchet_value_and_bound_witness :
    MonEvent.writeHigh (pyRound ((1 : ℚ) * (101/100)) 2) ∈
      monitorStep ⟨"p1", "X", "X", some (1/2), some 0⟩ (some 1) ⟨true, true, true⟩ ∧
    (1 : ℚ) < pyRound ((1 : ℚ) * (101/100)) 2 :=
  ⟨((monitor_ratchet_value_and_bound ⟨"p1", "X", "X", some (1/2), some 0⟩ 1
      ⟨true, true, true⟩ (1/2) 0 rfl rfl rfl rfl).1 (by norm_num)).1,
   ((monitor_ratchet_value_and_bound ⟨"p1", "X", "X", some (1/2), some 0⟩ 1
      ⟨true, true, true⟩ (1/2) 0 rfl rfl rfl rfl).1 (by norm_num)).2 (by norm_num)⟩

/-- C7: the parsed FX response inverts a pair quoted with USD as base
(`rates[quote] = 1/rate`, e.g. CNY from USDCNY) and uses a pair quoted
with USD as quote currency directly keyed by its base (e.g. HKD from
HKDUSD); stated concretely for CNY and HKD and generically for one
processing step. -/
theorem fx_reciprocal_law (r : ℚ) (hr : r ≠ 0) :
    dget (fetch_fx_rates_core [("USDCNY.FX", [r])]) "CNY" = some (1 / r)
    ∧ dget (fetch_fx_rates_core [("HKDUSD.FX", [r])]) "HKD" = some r
    ∧ (∀ (m : List (String × ℚ)) (ths : String) (lst : List ℚ),
        (ths == "") = false → lst.isEmpty = false →
        ((fxParse ths).2 = "USD" →
          fxStep m (ths, lst) = Except.ok (dset m (fxParse ths).1 ((lst.getLast?).getD 0)))
        ∧ ((fxParse ths).2 ≠ "USD" → (lst.getLast?).getD 0 ≠ 0 →
          fxStep m (ths, lst) = Except.ok (dset m (fxParse ths).2 (1 / (lst.getLast?).getD 0)))) := by
  have hrb : (r == 0) = false := by
    simp [hr]
  refine ⟨?_, ?_, ?_⟩
  · simp [fetch_fx_rates_core, fxStep, fxParse, dget, dset, hrb]
  · simp [fetch_fx_rates_core, fxStep, fxParse, dget, dset]
  · intro m ths lst h1 h2
    constructor
    · intro hq
      simp [fxStep, h1, h2, hq]
    · intro hq hz
      simp [fxStep, h1, h2, hq, hz]

theorem fx_reciprocal_law_witness :
    dget (fetch_fx_rates_core [("USDCNY.FX", [2])]) "CNY" = some (1 / 2)
    ∧ dget (fetch_fx_rates_core [("HKDUSD.FX", [2])]) "HKD" = some 2
    ∧ (∀ (m : List (String × ℚ)) (ths : String) (lst : List ℚ),
        (ths == "") = false → lst.isEmpty = false →
        ((fxParse ths).2 = "USD" →
          fxStep m (ths, lst) = Except.ok (dset m (fxParse ths).1 ((lst.getLast?).getD 0)))
        ∧ ((fxParse ths).2 ≠ "USD" → (lst.getLast?).getD 0 ≠ 0 →
          fxStep m (ths, lst) = Except.ok (dset m (fxParse ths).2 (1 / (lst.getLast?).getD 0)))) :=
  fx_reciprocal_law 2 (by norm_num)

lemma setNA_keyOf (v : ℚ) (e : Entry) : keyOf (setNA v e) = keyOf e := rfl

lemma setNA_is_stock (v : ℚ) (e : Entry) : (setNA v e).is_stock = e.is_stock := rfl

lemma setNA_name (v : ℚ) (e : Entry) : (setNA v e).name = e.name := rfl

lemma setNA_new_assets (v : ℚ) (e : Entry) : (setNA v e).new_assets = some v := rfl

lemma setRatio_keyOf (net : ℚ) (e : Entry) : keyOf (setRatio net e) = keyOf e := rfl

lemma setRatio_is_stock (net : ℚ) (e : Entry) : (setRatio net e).is_stock = e.is_stock := rfl

lemma setRatio_name (net : ℚ) (e : Entry) : (setRatio net e).name = e.name := rfl

lemma setRatio_new_assets (net : ℚ) (e : Entry) : (setRatio net e).new_assets = e.new_assets := rfl

lemma procStock_keyOf (sd : List (String × StockInfo)) (fx : List (String × ℚ)) (e : Entry) :
    keyOf (procStock sd fx e) = keyOf e := by
  rw [procStock]
  split
  · split <;> rfl
  · rfl

lemma procStock_name (sd : List (String × StockInfo)) (fx : List (String × ℚ)) (e : Entry) :
    (procStock sd fx e).name = e.name := by
  rw [procStock]
  split
  · split <;> rfl
  · rfl

lemma procStock_is_stock (sd : List (String × StockInfo)) (fx : List (String × ℚ)) (e : Entry) :
    (procStock sd fx e).is_stock = e.is_stock := by
  rw [procStock]
  split
  · split <;> rfl
  · rfl

lemma procStock_not_stock (sd : List (String × StockInfo)) (fx : List (String × ℚ)) (e : Entry)
    (h : e.is_stock = false) : procStock sd fx e = e := by
  simp [procStock, h]

lemma contribOf_setNA (sd : List (String × StockInfo)) (fx : List (String × ℚ)) (v : ℚ) (e : Entry) :
    contribOf sd fx (setNA v e) = contribOf sd fx e := rfl

lemma mem_updateFirst {p : Entry → Bool} {f : Entry → Entry} {l : List Entry} {x : Entry}
    (hx : x ∈ updateFirst p f l) : x ∈ l ∨ ∃ y ∈ l, x = f y := by
  induction l with
  | nil => simp [updateFirst] at hx
  | cons e r ih =>
    rw [updateFirst] at hx
    by_cases hp : p e
    · rw [if_pos hp] at hx
      rcases List.mem_cons.1 hx with h | h
      · exact Or.inr ⟨e, List.mem_cons_self e r, h⟩
      · exact Or.inl (List.mem_cons_of_mem _ h)
    · rw [if_neg hp] at hx
      rcases List.mem_cons.1 hx with h | h
      · exact Or.inl (h ▸ List.mem_cons_self e r)
      · rcases ih h with h2 | ⟨y, hy, hxy⟩
        · exact Or.inl (List.mem_cons_of_mem _ h2)
        · exact Or.inr ⟨y, List.mem_cons_of_mem _ hy, hxy⟩

lemma map_updateFirst {α : Type} (p : Entry → Bool) (f : Entry → Entry) (g : Entry → α)
    (l : List Entry) (hg : ∀ e ∈ l, p e = true → g (f e) = g e) :
    (updateFirst p f l).map g = l.map g := by
  induction l with
  | nil => rfl
  | cons e r ih =>
    rw [updateFirst]
    by_cases hp : p e
    · rw [if_pos hp]
      simp [hg e (List.mem_cons_self e r) hp]
    · rw [if_neg hp]
      simp only [List.map_cons]
      rw [ih (fun x hx hpx => hg x (List.mem_cons_of_mem _ hx) hpx)]

lemma find?_updateFirst (p : Entry → Bool) (f : Entry → Entry) (l : List Entry)
    (hf : ∀ e, p (f e) = p e) :
    (updateFirst p f l).find? p = (l.find? p).map f := by
  induction l with
  | nil => rfl
  | cons e r ih =>
    rw [updateFirst]
    by_cases hp : p e
    · rw [if_pos hp]
      rw [List.find?_cons_of_pos _ ((hf e).trans hp), List.find?_cons_of_pos _ hp]
      rfl
    · rw [if_neg hp]
      rw [List.find?_cons_of_neg _ hp, List.find?_cons_of_neg _ hp, ih]

lemma filter_not_updateFirst (p : Entry → Bool) (f : Entry → Entry) (l : List Entry)
    (hf : ∀ e, p (f e) = p e) :
    (updateFirst p f l).filter (fun e => !(p e)) = l.filter (fun e => !(p e)) := by
  induction l with
  | nil => rfl
  | cons e r ih =>
    rw [updateFirst]
    by_cases hp : p e
    · rw [if_pos hp]
      rw [List.filter_cons_of_neg (by simp [hf, hp]), List.filter_cons_of_neg (by simp [hp])]
    · rw [if_neg hp]
      rw [List.filter_cons_of_pos (by simp [hp]), List.filter_cons_of_pos (by simp [hp]), ih]

lemma calculate_assets_eq_resList (entries : List Entry) (sd : List (String × StockInfo))
    (fx : List (String × ℚ)) :
    calculate_assets entries sd fx = resList (calcAssetsE entries sd fx) := by
  rw [calculate_assets]
  rcases hE : calcAssetsE entries sd fx with l | ⟨l, t⟩ <;> rfl

lemma stockLoop_resList_keys (sd : List (String × StockInfo)) (fx : List (String × ℚ))
    (l : List Entry) : (resList (stockLoop sd fx l)).map keyOf = l.map keyOf := by
  induction l with
  | nil => rfl
  | cons e r ih =>
    rw [stockLoop]
    by_cases hs : e.is_stock
    · simp only [if_pos hs]
      rcases hsd : dget sd e.name with _ | info <;> rcases hcur : e.currency with _ | cur <;>
        simp only []
      · rcases hres : stockLoop sd fx r with l2 | ⟨l2, t⟩ <;>
          rw [hres] at ih <;> simp [resList] at ih <;> simp [resList, ih, procStock_keyOf]
      · rcases hres : stockLoop sd fx r with l2 | ⟨l2, t⟩ <;>
          rw [hres] at ih <;> simp [resList] at ih <;> simp [resList, ih, procStock_keyOf]
      · simp [resList, keyOf]
      · rcases hres : stockLoop sd fx r with l2 | ⟨l2, t⟩ <;>
          rw [hres] at ih <;> simp [resList] at ih <;> simp [resList, ih, procStock_keyOf]
    · simp only [if_neg hs]
      rcases hres : stockLoop sd fx r with l2 | ⟨l2, t⟩ <;>
        rw [hres] at ih <;> simp [resList] at ih <;> simp [resList, ih]

lemma stockLoop_ok (sd : List (String × StockInfo)) (fx : List (String × ℚ)) (l : List Entry)
    (h : ∀ e ∈ l, e.is_stock = true → dget sd e.name ≠ Option.none → e.currency ≠ Option.none) :
    stockLoop sd fx l =
      Except.ok (l.map (procStock sd fx), (l.map (contribOf sd fx)).sum) := by
  induction l with
  | nil => rfl
  | cons e r ih =>
    have ihr := ih (fun x hx => h x (List.mem_cons_of_mem _ hx))
    rw [stockLoop]
    by_cases hs : e.is_stock
    · simp only [if_pos hs]
      rcases hsd : dget sd e.name with _ | info <;> rcases hcur : e.currency with _ | cur
      · simp only [ihr]
        simp [contribOf, procStock, hs, hsd, hcur, add_comm]
      · simp only [ihr]
        simp [contribOf, procStock, hs, hsd, hcur, add_comm]
      · exact absurd hcur (h e (List.mem_cons_self e r) hs (by rw [hsd]; simp))
      · simp only [ihr]
        simp [add_comm]
    · simp only [if_neg hs]
      rw [ihr]
      have hps : procStock sd fx e = e := procStock_not_stock sd fx e (by simpa using hs)
      have hc : contribOf sd fx e = 0 := by
        simp [contribOf, (by simpa using hs : e.is_stock = false)]
      simp [hps, hc]

lemma calcAssetsE_spec (entries : List Entry) (sd : List (String × StockInfo))
    (fx : List (String × ℚ)) (c : Entry) (q : ℚ)
    (hcash : entries.find? isCash = some c)
    (hq : c.current_assets = PyVal.num q)
    (hcur : ∀ e ∈ entries, e.is_stock = true → e.currency ≠ Option.none) :
    calcAssetsE entries sd fx =
      Except.ok (valuedOf entries sd fx q, q + totalStockAssets entries sd fx) := by
  rw [calcAssetsE, hcash]
  simp only [hq]
  have hcur1 : ∀ e ∈ updateFirst isCash (setNA q) entries, e.is_stock = true →
      dget sd e.name ≠ Option.none → e.currency ≠ Option.none := by
    intro e he hs _
    rcases mem_updateFirst he with h2 | ⟨y, hy, hxy⟩
    · exact hcur e h2 hs
    · subst hxy
      exact hcur y hy (by simpa using hs)
  rw [stockLoop_ok sd fx _ hcur1]
  have hct : (updateFirst isCash (setNA q) entries).map (contribOf sd fx) =
      entries.map (contribOf sd fx) :=
    map_updateFirst _ _ _ _ (fun e _ _ => contribOf_setNA sd fx q e)
  simp only [hct]
  rfl

lemma isNetAsset_procStock (sd : List (String × StockInfo)) (fx : List (String × ℚ)) (e : Entry) :
    isNetAsset (procStock sd fx e) = isNetAsset e := by
  simp [isNetAsset, procStock_name]

lemma isCash_procStock (sd : List (String × StockInfo)) (fx : List (String × ℚ)) (e : Entry) :
    isCash (procStock sd fx e) = isCash e := by
  simp [isCash, procStock_name]

lemma stockAssetSum_map_setRatio (net : ℚ) (l : List Entry) :
    stockAssetSum (l.map (setRatio net)) = stockAssetSum l := by
  rw [stockAssetSum, stockAssetSum, List.map_map]
  congr 1

lemma stockAssetSum_updateFirst_net (v : ℚ) (l : List Entry)
    (h : ∀ e ∈ l, isNetAsset e = true → e.is_stock = false) :
    stockAssetSum (updateFirst isNetAsset (setNA v) l) = stockAssetSum l := by
  rw [stockAssetSum, stockAssetSum]
  rw [map_updateFirst _ _ _ _ (fun e he hp => by simp [setNA_is_stock, h e he hp])]

lemma stockAssetSum_map_procStock (sd : List (String × StockInfo)) (fx : List (String × ℚ))
    (l : List Entry) :
    stockAssetSum (l.map (procStock sd fx)) = (l.map (contribOf sd fx)).sum := by
  rw [stockAssetSum, List.map_map]
  congr 1
  apply List.map_congr_left
  intro e _
  by_cases hs : e.is_stock
  · rcases hsd : dget sd e.name with _ | info <;> rcases hcur : e.currency with _ | cur <;>
      simp [Function.comp, procStock, contribOf, hs, hsd, hcur]
  · have hs2 : e.is_stock = false := by simpa using hs
    simp [Function.comp, procStock_not_stock sd fx e hs2, hs2, contribOf]

lemma valued_net_not_stock (entries : List Entry) (sd : List (String × StockInfo))
    (fx : List (String × ℚ)) (q : ℚ)
    (hwf : ∀ e ∈ entries, e.is_stock = (!(isCash e) && !(isNetAsset e))) :
    ∀ e ∈ (updateFirst isCash (setNA q) entries).map (procStock sd fx),
      isNetAsset e = true → e.is_stock = false := by
  intro e he hne
  rcases List.mem_map.1 he with ⟨x, hx, rfl⟩
  rw [isNetAsset_procStock] at hne
  rw [procStock_is_stock]
  rcases mem_updateFirst hx with h2 | ⟨y, hy, rfl⟩
  · rw [hwf x h2, hne]
    simp
  · rw [setNA_is_stock]
    rw [isNetAsset, setNA_name] at hne
    rw [hwf y hy, isNetAsset, hne]
    simp

lemma stockAssetSum_valuedOf (entries : List Entry) (sd : List (String × StockInfo))
    (fx : List (String × ℚ)) (q : ℚ)
    (hwf : ∀ e ∈ entries, e.is_stock = (!(isCash e) && !(isNetAsset e))) :
    stockAssetSum (valuedOf entries sd fx q) = totalStockAssets entries sd fx := by
  rw [valuedOf, stockAssetSum_map_setRatio,
    stockAssetSum_updateFirst_net _ _ (valued_net_not_stock entries sd fx q hwf),
    stockAssetSum_map_procStock,
    map_updateFirst _ _ _ _ (fun e _ _ => contribOf_setNA sd fx q e)]
  rfl

/-- C1: with a valid CASH record, `calculate_assets` succeeds and computes
the net asset value as exactly the CASH record's `current_assets` plus the
sum of `new_assets` over the stock records (the NET_ASSET record is not a
stock record and is excluded from the sum), and a NET_ASSET record, when
present, receives this net value as its `new_assets`. -/
theorem valuation_conservation (entries : List Entry) (sd : List (String × StockInfo))
    (fx : List (String × ℚ)) (c : Entry) (q : ℚ)
    (hwf : ∀ e ∈ entries, e.is_stock = (!(isCash e) && !(isNetAsset e)))
    (hcash : entries.find? isCash = some c)
    (hq : c.current_assets = PyVal.num q)
    (hcur : ∀ e ∈ entries, e.is_stock = true → e.currency ≠ Option.none) :
    ∃ out : List Entry,
      calcAssetsE entries sd fx = Except.ok (out, q + stockAssetSum out)
      ∧ ∀ ne, out.find? isNetAsset = some ne →
          ne.new_assets = some (q + stockAssetSum out) := by
  have hsum := stockAssetSum_valuedOf entries sd fx q hwf
  refine ⟨valuedOf entries sd fx q, ?_, ?_⟩
  · rw [hsum]
    exact calcAssetsE_spec entries sd fx c q hcash hq hcur
  · intro ne hne
    rw [hsum]
    rw [valuedOf, List.find?_map] at hne
    have hpred : (isNetAsset ∘ setRatio (q + totalStockAssets entries sd fx)) = isNetAsset :=
      funext fun e => by simp [Function.comp, isNetAsset, setRatio_name]
    rw [hpred] at hne
    rw [find?_updateFirst _ _ _ (fun e => by simp [isNetAsset, setNA_name])] at hne
    rcases hM : List.find? isNetAsset
        ((updateFirst isCash (setNA q) entries).map (procStock sd fx)) with _ | z
    · rw [hM] at hne
      simp at hne
    · rw [hM] at hne
      simp at hne
      rw [← hne]
      rfl

theorem valuation_conservation_witness :
    ∃ out : List Entry,
      calcAssetsE exEntries exSd [] = Except.ok (out, 10000 + stockAssetSum out)
      ∧ ∀ ne, out.find? isNetAsset = some ne →
          ne.new_assets = some (10000 + stockAssetSum out) :=
  valuation_conservation exEntries exSd []
    { id := "c", name := CASH_NAME, is_stock := false, shares := PyVal.num 0,
      current_assets := PyVal.num 10000 } 10000
    (by decide) (by decide) rfl (by decide)

/-- C2 as stated is false: when the KeyError is raised mid-pass (stock with
a quote but no currency key), `calculate_assets` catches it but returns the
records with the mutations already applied — the CASH record carries
`new_assets = 100` and the failing stock carries `new_assets = 0` — not the
pre-valuation state. -/
theorem valuation_partial_mutation_cex :
    (calcAssetsE cexEntries cexSd []).isOk = false
    ∧ calculate_assets cexEntries cexSd [] =
      [{ id := "c1", name := CASH_NAME, is_stock := false, shares := PyVal.num 0,
         current_assets := PyVal.num 100, new_assets := some 100 },
       { id := "s1", name := "XSTK", is_stock := true, shares := PyVal.num 5,
         current_assets := PyVal.pynone, new_assets := some 0 }]
    ∧ calculate_assets cexEntries cexSd [] ≠ cexEntries := by
  refine ⟨by decide, by decide, by decide⟩

/-- C2 amended: no exception ever escapes `calculate_assets` — it always
returns the same records (ids and names, in order) — and when the failure
is the cash validation, which precedes every mutation, the records come
back exactly in their pre-valuation state; a failure later in the pass
returns the records with the in-place mutations made before the failure
point, as the counterexample shows. -/
theorem valuation_exception_contained (entries : List Entry) (sd : List (String × StockInfo))
    (fx : List (String × ℚ)) :
    (calculate_assets entries sd fx).map keyOf = entries.map keyOf
    ∧ (cashInvalid entries = true → calculate_assets entries sd fx = entries) := by
  constructor
  · rw [calculate_assets_eq_resList, calcAssetsE]
    rcases hc : entries.find? isCash with _ | c
    · rfl
    · rcases hca : c.current_assets with q | s | _
      · simp only [hca]
        have hMkeys : (updateFirst isCash (setNA q) entries).map keyOf = entries.map keyOf :=
          map_updateFirst _ _ _ _ (fun e _ _ => setNA_keyOf q e)
        have hM := stockLoop_resList_keys sd fx (updateFirst isCash (setNA q) entries)
        rcases hres : stockLoop sd fx (updateFirst isCash (setNA q) entries) with l | ⟨l, t⟩
        · rw [hres] at hM
          simp only [resList] at hM
          simp only [hres, resList]
          rw [hM, hMkeys]
        · rw [hres] at hM
          simp only [resList] at hM
          simp only [hres, resList, List.map_map]
          have h1 : (updateFirst isNetAsset (setNA (q + t)) l).map
              (keyOf ∘ setRatio (q + t)) = l.map (keyOf ∘ setRatio (q + t)) :=
            map_updateFirst _ _ _ _ (fun e _ _ => by
              simp [Function.comp, setRatio_keyOf, setNA_keyOf])
          rw [h1]
          have h2 : l.map (keyOf ∘ setRatio (q + t)) = l.map keyOf :=
            List.map_congr_left (fun e _ => setRatio_keyOf (q + t) e)
          rw [h2, hM, hMkeys]
      · simp only [hca]
        rfl
      · simp only [hca]
        rfl
  · intro hinv
    rw [calculate_assets_eq_resList, calcAssetsE]
    rw [cashInvalid] at hinv
    rcases hc : entries.find? isCash with _ | c
    · rfl
    · rw [hc] at hinv
      simp only [] at hinv
      rcases hca : c.current_assets with q | s | _
      · rw [hca] at hinv
        simp [isNumB] at hinv
      · simp only [hca]
        rfl
      · simp only [hca]
        rfl

theorem valuation_exception_contained_witness :
    (calculate_assets noCashEntries cexSd []).map keyOf = noCashEntries.map keyOf
    ∧ calculate_assets noCashEntries cexSd [] = noCashEntries :=
  ⟨(valuation_exception_contained noCashEntries cexSd []).1,
   (valuation_exception_contained noCashEntries cexSd []).2 (by decide)⟩

lemma calculate_assets_cashInvalid (entries : List Entry) (sd : List (String × StockInfo))
    (fx : List (String × ℚ)) (h : cashInvalid entries = true) :
    calculate_assets entries sd fx = entries := by
  rw [calculate_assets_eq_resList, calcAssetsE]
  rw [cashInvalid] at h
  rcases hc : entries.find? isCash with _ | c
  · rfl
  · rw [hc] at h
    simp only [] at h
    rcases hca : c.current_assets with q | s | _
    · rw [hca] at h
      simp [isNumB] at h
    · simp only [hca]
      rfl
    · simp only [hca]
      rfl

lemma cashInvalid_prep (entries : List Entry) :
    cashInvalid (prep entries) = cashInvalid entries := by
  rw [cashInvalid, cashInvalid, prep, List.find?_map]
  have hpred : (isCash ∘ (fun e =>
      if e.is_stock then { e with currency := some (determine_currency e.name) } else e))
      = isCash := by
    funext e
    by_cases h : e.is_stock <;> simp [Function.comp, isCash, h]
  rw [hpred]
  rcases entries.find? isCash with _ | c
  · rfl
  · simp only [Option.map_some]
    by_cases h : c.is_stock <;> simp [h]

lemma prep_new_assets_none (entries : List Entry)
    (hfresh : ∀ e ∈ entries, e.new_assets = Option.none) :
    ∀ e ∈ prep entries, e.new_assets = Option.none := by
  intro e he
  rcases List.mem_map.1 he with ⟨x, hx, rfl⟩
  by_cases h : x.is_stock <;> simp [h, hfresh x hx]

lemma entryWrites_no_assets (sd : List (String × StockInfo)) (oc : Oracles) (e : Entry)
    (h : e.new_assets = Option.none) :
    ∀ w ∈ entryWrites sd oc e, isAssetsWrite w = false := by
  intro w hw
  rw [entryWrites] at hw
  by_cases hs : e.is_stock
  · rw [if_pos hs] at hw
    rcases hsd : dget sd e.name with _ | info
    · rw [hsd] at hw
      simp at hw
    · rw [hsd] at hw
      simp only [] at hw
      by_cases hp : oc.propsOk e.id
      · rw [if_pos hp, h] at hw
        rcases e.new_ratio with _ | r <;> simp at hw <;> simp [hw, isAssetsWrite]
      · rw [if_neg hp] at hw
        simp at hw
        simp [hw, isAssetsWrite]
  · rw [if_neg hs] at hw
    by_cases hcn : (isCash e || isNetAsset e) = true
    · rw [if_pos hcn, h] at hw
      rcases e.new_ratio with _ | r <;> simp at hw
    · rw [if_neg hcn] at hw
      simp at hw

/-- C3 as stated is false: with the CASH record missing entirely and one
quoted stock, the run is not aborted — a price-property write for the
stock is still attempted (with the defaulted values 0/0/USD) before the
KeyError on its missing `new_assets` is swallowed. -/
theorem cash_missing_write_attempted_cex :
    cashInvalid noCashEntries = true
    ∧ mainRun noCashEntries exSd [] ocTrue = [WriteOp.props "p1" 0 0 "USD"] := by
  refine ⟨by decide, by decide⟩

/-- C3 amended: with a missing or non-numeric CASH record the valuation
pass itself aborts with the records unchanged, and no asset/ratio write
(`update_asset_properties`) is attempted for any record; price-property
writes for quoted stock records are still attempted, however, so the run
is not free of write attempts. -/
theorem cash_invalid_no_asset_writes (entries : List Entry) (sd : List (String × StockInfo))
    (fx : List (String × ℚ)) (oc : Oracles)
    (hfresh : ∀ e ∈ entries, e.new_assets = Option.none)
    (hinv : cashInvalid entries = true) :
    calculate_assets entries sd fx = entries
    ∧ (mainRun entries sd fx oc).all (fun w => !(isAssetsWrite w)) = true := by
  refine ⟨calculate_assets_cashInvalid entries sd fx hinv, ?_⟩
  rw [mainRun]
  by_cases he : entries.isEmpty
  · simp [he]
  · rw [if_neg he]
    have hinv2 : cashInvalid (prep entries) = true := by rw [cashInvalid_prep]; exact hinv
    rw [calculate_assets_cashInvalid (prep entries) sd fx hinv2]
    rw [List.all_eq_true]
    intro w hw
    rcases List.mem_flatMap.1 hw with ⟨e, he2, hwe⟩
    have hna := prep_new_assets_none entries hfresh e he2
    simp [entryWrites_no_assets sd oc e hna w hwe]

theorem cash_invalid_no_asset_writes_witness :
    calculate_assets noCashEntries exSd [] = noCashEntries
    ∧ (mainRun noCashEntries exSd [] ocTrue).all (fun w => !(isAssetsWrite w)) = true :=
  cash_invalid_no_asset_writes noCashEntries exSd [] ocTrue (by decide) (by decide)

/-- C10: a stock record whose code has no fetched quote is skipped entirely
by the write-back loop — no property of it is patched — even though the
in-memory valuation pass set its `new_assets` to 0. -/
theorem stock_without_quote_not_patched (sd : List (String × StockInfo))
    (fx : List (String × ℚ)) (oc : Oracles) (e : Entry)
    (hs : e.is_stock = true) (hq : dget sd e.name = Option.none) :
    entryWrites sd oc e = [] ∧ (procStock sd fx e).new_assets = some 0 := by
  constructor
  · rw [entryWrites, if_pos hs, hq]
  · rw [procStock, if_pos hs, hq]

theorem stock_without_quote_not_patched_witness :
    entryWrites [] ocTrue
      { id := "p1", name := "AAPL", is_stock := true, shares := PyVal.num 1,
        current_assets := PyVal.num 0 } = []
    ∧ (procStock [] []
      { id := "p1", name := "AAPL", is_stock := true, shares := PyVal.num 1,
        current_assets := PyVal.num 0 }).new_assets = some 0 :=
  stock_without_quote_not_patched [] [] ocTrue _ rfl rfl

/-- C6 as stated is false: the native quote is rounded to 4 decimals at
fetch time, inside `fetch_stock_data`, so the value feeding the asset
computation is the rounded quote: a raw last price of 1.00001 is stored as
1, and the position's `new_assets` becomes 1 · 1 · 1 = 1, not 1.00001. -/
theorem quote_rounded_at_fetch_cex :
    dget (fetch_stock_data_core [("AAPL", [100001/100000])]) "AAPL" = some ⟨1, "AAPL"⟩
    ∧ (calculate_assets roundEntries (fetch_stock_data_core [("AAPL", [100001/100000])]) []).map
        (fun e => e.new_assets) = [some 3, some 1]
    ∧ (100001/100000 : ℚ) ≠ 1 := by
  have hpr : pyRound (100001/100000 : ℚ) 4 = 1 := by
    rw [pyRound_eval (100001/100000 : ℚ) 4 10000 (by norm_num) (by norm_num)]
    norm_num
  have hsd : fetch_stock_data_core [("AAPL", [100001/100000])] = [("AAPL", ⟨1, "AAPL"⟩)] := by
    simp [fetch_stock_data_core, dset, hpr]
  refine ⟨?_, ?_, by norm_num⟩
  · rw [hsd]
    rfl
  · rw [hsd]
    have hspec := calcAssetsE_spec roundEntries [("AAPL", ⟨1, "AAPL"⟩)] []
      { id := "c1", name := CASH_NAME, is_stock := false, shares := PyVal.num 0,
        current_assets := PyVal.num 3 } 3 (by decide) rfl (by decide)
    rw [calculate_assets_eq_resList, hspec]
    simp only [resList, valuedOf, List.map_map]
    norm_num [updateFirst, isNetAsset, isCash, setNA, procStock, contribOf,
      totalStockAssets, dget, pyNumD, roundEntries, NET_ASSET_NAME, CASH_NAME]
    rw [if_neg (show ¬ ("现金" : String) = "净资产" by decide)]
    rw [if_neg (show ¬ ("AAPL" : String) = "净资产" by decide)]
    simp [Function.comp, setRatio_new_assets]

/-- C6 amended: asset values and ratios are rounded (2 and 4 decimals)
only inside the write payload; the stored `usd_price` field is the
4-decimal rounding of `price * fx`, while `new_assets` is the unrounded
product `price * fx * shares`; the native quote itself, however, is
rounded to 4 decimals already at fetch time, so the valuation consumes
the fetch-rounded quote, not the raw one. -/
theorem rounding_points_amended (sd : List (String × StockInfo)) (fx : List (String × ℚ)) :
    (∀ (e : Entry) (info : StockInfo) (cur : String), e.is_stock = true →
      dget sd e.name = some info → e.currency = some cur →
      (procStock sd fx e).new_assets
          = some (info.price * ((dget fx cur).getD 1) * pyNumD e.shares)
      ∧ (procStock sd fx e).usd_price
          = some (pyRound (info.price * ((dget fx cur).getD 1)) 4))
    ∧ (∀ (oc : Oracles) (e : Entry) (info : StockInfo) (a r : ℚ), e.is_stock = true →
        dget sd e.name = some info → oc.propsOk e.id = true →
        e.new_assets = some a → e.new_ratio = some r →
        entryWrites sd oc e =
          [WriteOp.props e.id ((e.price).getD 0) ((e.usd_price).getD 0)
              ((e.currency).getD "USD"),
           WriteOp.assets e.id (pyRound a 2) (pyRound r 4)])
    ∧ (∀ (c : String) (lst : List ℚ), (c == "") = false → lst.isEmpty = false →
        fetch_stock_data_core [(c, lst)] = [(c, ⟨pyRound ((lst.getLast?).getD 0) 4, c⟩)]) := by
  refine ⟨?_, ?_, ?_⟩
  · intro e info cur hs hsd hcur
    rw [procStock, if_pos hs, hsd, hcur]
    exact ⟨rfl, rfl⟩
  · intro oc e info a r hs hsd hp hna hnr
    rw [entryWrites, if_pos hs, hsd]
    simp only [if_pos hp, hna, hnr]
  · intro c lst h1 h2
    simp only [beq_eq_false_iff_ne, ne_eq] at h1
    rw [List.isEmpty_eq_false] at h2
    simp [fetch_stock_data_core, h1, h2, dset]

theorem rounding_points_amended_witness :
    ((procStock exSd [] valuedStockEntry).new_assets
        = some ((150 : ℚ) * ((dget ([] : List (String × ℚ)) "USD").getD 1)
            * pyNumD valuedStockEntry.shares)
      ∧ (procStock exSd [] valuedStockEntry).usd_price
        = some (pyRound ((150 : ℚ) * ((dget ([] : List (String × ℚ)) "USD").getD 1)) 4))
    ∧ entryWrites exSd ocTrue valuedStockEntry =
        [WriteOp.props "s1" ((valuedStockEntry.price).getD 0)
            ((valuedStockEntry.usd_price).getD 0) ((valuedStockEntry.currency).getD "USD"),
         WriteOp.assets "s1" (pyRound 1 2) (pyRound (1/4) 4)]
    ∧ fetch_stock_data_core [("AAPL", [2])]
        = [("AAPL", ⟨pyRound (((2 : ℚ) :: ([] : List ℚ)).getLast?.getD 0) 4, "AAPL"⟩)] :=
  ⟨(rounding_points_amended exSd []).1 valuedStockEntry ⟨150, "AAPL"⟩ "USD" rfl rfl rfl,
   (rounding_points_amended exSd []).2.1 ocTrue valuedStockEntry ⟨150, "AAPL"⟩ 1 (1/4)
     rfl rfl rfl rfl rfl,
   (rounding_points_amended exSd []).2.2 "AAPL" [2] rfl rfl⟩

lemma sum_filter_not_eq (l : List Entry) (p : Entry → Bool) (g : Entry → ℚ) :
    ((l.filter (fun e => !(p e))).map g).sum
      = (l.map (fun e => if p e then 0 else g e)).sum := by
  induction l with
  | nil => rfl
  | cons e r ih => by_cases hp : p e <;> simp [hp, ih]

lemma sum_pyRound_bound (l : List ℚ) (k : ℕ) :
    |(l.map (fun x => pyRound x k)).sum - l.sum| ≤ (l.length : ℚ) * (1 / (2 * 10 ^ k)) := by
  induction l with
  | nil => simp
  | cons a r ih =>
    simp only [List.map_cons, List.sum_cons, List.length_cons]
    have h1 := pyRound_sub_abs_le a k
    have h2 : |(pyRound a k + (r.map (fun x => pyRound x k)).sum) - (a + r.sum)|
        ≤ |pyRound a k - a| + |(r.map (fun x => pyRound x k)).sum - r.sum| := by
      have : (pyRound a k + (r.map (fun x => pyRound x k)).sum) - (a + r.sum)
          = (pyRound a k - a) + ((r.map (fun x => pyRound x k)).sum - r.sum) := by ring
      rw [this]
      exact abs_add _ _
    have h3 : ((r.length : ℚ) + 1) * (1 / (2 * 10 ^ k))
        = 1 / (2 * 10 ^ k) + (r.length : ℚ) * (1 / (2 * 10 ^ k)) := by ring
    push_cast
    rw [h3]
    exact le_trans h2 (add_le_add h1 ih)

lemma sum_map_div (l : List Entry) (g : Entry → ℚ) (d : ℚ) :
    (l.map (fun e => g e / d)).sum = (l.map g).sum / d := by
  induction l with
  | nil => simp
  | cons e r ih => simp [ih, add_div]

lemma not_net_of_cash (e : Entry) (h : isCash e = true) : isNetAsset e = false := by
  have h2 : e.name = CASH_NAME := by simpa [isCash] using h
  rw [isNetAsset, h2]
  decide

lemma pointwise_ratio_base (sd : List (String × StockInfo)) (fx : List (String × ℚ)) (e : Entry)
    (hwfe : e.is_stock = (!(isCash e) && !(isNetAsset e)))
    (hfr : e.new_assets = Option.none) :
    (if isNetAsset (procStock sd fx e) then 0 else ((procStock sd fx e).new_assets).getD 0)
      = contribOf sd fx e := by
  rw [isNetAsset_procStock]
  by_cases hs : e.is_stock = true
  · have hna : isNetAsset e = false := by
      rcases hb : isNetAsset e
      · rfl
      · rw [hwfe, hb] at hs
        simp at hs
    rw [hna]
    rcases hsd : dget sd e.name with _ | info <;> rcases hcur : e.currency with _ | cur <;>
      simp [procStock, contribOf, hs, hsd, hcur]
  · have hs2 : e.is_stock = false := by simpa using hs
    rw [procStock_not_stock sd fx e hs2]
    by_cases hn : isNetAsset e <;> simp [hn, hfr, contribOf, hs2]

lemma nonNet_base_sum (sd : List (String × StockInfo)) (fx : List (String × ℚ)) :
    ∀ (l : List Entry) (q : ℚ) (c : Entry),
      (∀ e ∈ l, e.is_stock = (!(isCash e) && !(isNetAsset e))) →
      (∀ e ∈ l, e.new_assets = Option.none) →
      l.find? isCash = some c →
      ((updateFirst isCash (setNA q) l).map
        (fun e => if isNetAsset (procStock sd fx e) then 0
                  else ((procStock sd fx e).new_assets).getD 0)).sum
        = q + (l.map (contribOf sd fx)).sum := by
  intro l
  induction l with
  | nil => intro q c _ _ hfind; simp at hfind
  | cons e r ih =>
    intro q c hwf hfresh hfind
    by_cases hc : isCash e
    · rw [updateFirst, if_pos hc]
      simp only [List.map_cons, List.sum_cons]
      have hwfe := hwf e (List.mem_cons_self e r)
      have hstock : e.is_stock = false := by
        rw [hwfe, hc]
        rfl
      have hproc : procStock sd fx (setNA q e) = setNA q e :=
        procStock_not_stock sd fx _ (by rw [setNA_is_stock]; exact hstock)
      have hnet : isNetAsset (setNA q e) = false := by
        rw [isNetAsset, setNA_name, ← isNetAsset]
        exact not_net_of_cash e hc
      rw [hproc, hnet]
      simp only [Bool.false_eq_true, if_false, setNA_new_assets, Option.getD_some]
      have hrest : (r.map
          (fun e => if isNetAsset (procStock sd fx e) then 0
                    else ((procStock sd fx e).new_assets).getD 0)).sum
          = (r.map (contribOf sd fx)).sum := by
        have := List.map_congr_left (l := r)
          (f := fun e => if isNetAsset (procStock sd fx e) then 0
                          else ((procStock sd fx e).new_assets).getD 0)
          (g := contribOf sd fx)
          (fun x hx => pointwise_ratio_base sd fx x (hwf x (List.mem_cons_of_mem _ hx))
            (hfresh x (List.mem_cons_of_mem _ hx)))
        rw [this]
      rw [hrest]
      have hce : contribOf sd fx e = 0 := by simp [contribOf, hstock]
      simp [hce]
    · rw [updateFirst, if_neg hc]
      simp only [List.map_cons, List.sum_cons]
      rw [List.find?_cons_of_neg _ hc] at hfind
      rw [ih q c (fun x hx => hwf x (List.mem_cons_of_mem _ hx))
        (fun x hx => hfresh x (List.mem_cons_of_mem _ hx)) hfind]
      rw [pointwise_ratio_base sd fx e (hwf e (List.mem_cons_self e r))
        (hfresh e (List.mem_cons_self e r))]
      ring

lemma nonNetSum_valued (entries : List Entry) (sd : List (String × StockInfo))
    (fx : List (String × ℚ)) (q : ℚ) (c : Entry)
    (hwf : ∀ e ∈ entries, e.is_stock = (!(isCash e) && !(isNetAsset e)))
    (hfresh : ∀ e ∈ entries, e.new_assets = Option.none)
    (hcash : entries.find? isCash = some c) :
    nonNetSum (updateFirst isNetAsset (setNA (q + totalStockAssets entries sd fx))
        ((updateFirst isCash (setNA q) entries).map (procStock sd fx)))
      = q + totalStockAssets entries sd fx := by
  rw [nonNetSum]
  rw [filter_not_updateFirst isNetAsset (setNA (q + totalStockAssets entries sd fx)) _
    (fun e => rfl)]
  rw [List.filter_map, List.map_map]
  have hform : (((updateFirst isCash (setNA q) entries).filter
        ((fun e => !(isNetAsset e)) ∘ procStock sd fx)).map
        ((fun e => (e.new_assets).getD 0) ∘ procStock sd fx)).sum
      = (((updateFirst isCash (setNA q) entries).filter
        (fun e => !(isNetAsset (procStock sd fx e)))).map
        (fun e => ((procStock sd fx e).new_assets).getD 0)).sum := rfl
  rw [hform]
  rw [sum_filter_not_eq _ (fun e => isNetAsset (procStock sd fx e))
    (fun e => ((procStock sd fx e).new_assets).getD 0)]
  rw [nonNet_base_sum sd fx entries q c hwf hfresh hcash]
  rfl

/-- C8: for a well-formed fresh record set with a valid CASH record, a
successful valuation with nonzero net asset value yields ratios over the
non-NET_ASSET records summing to 1 within the 4-decimal rounding tolerance
(half an ulp, 1/20000, per record); with a zero net asset value every
record's ratio is exactly 0. -/
theorem ratio_normalization (entries : List Entry) (sd : List (String × StockInfo))
    (fx : List (String × ℚ)) (c : Entry) (q : ℚ)
    (hwf : ∀ e ∈ entries, e.is_stock = (!(isCash e) && !(isNetAsset e)))
    (hfresh : ∀ e ∈ entries, e.new_assets = Option.none)
    (hcash : entries.find? isCash = some c)
    (hq : c.current_assets = PyVal.num q)
    (hcur : ∀ e ∈ entries, e.is_stock = true → e.currency ≠ Option.none) :
    ∀ out net, calcAssetsE entries sd fx = Except.ok (out, net) →
      (net = 0 → ∀ e ∈ out, e.new_ratio = some 0)
      ∧ (net ≠ 0 →
          |((out.filter (fun e => !(isNetAsset e))).map
              (fun e => (e.new_ratio).getD 0)).sum - 1|
            ≤ ((out.filter (fun e => !(isNetAsset e))).length : ℚ) / 20000) := by
  intro out net hok
  rw [calcAssetsE_spec entries sd fx c q hcash hq hcur] at hok
  injection Except.ok.inj hok with h1 h2
  subst h1
  subst h2
  constructor
  · intro h0 e he
    rw [valuedOf] at he
    rcases List.mem_map.1 he with ⟨x, _, rfl⟩
    simp [setRatio, h0]
  · intro hnz
    rw [valuedOf]
    have hpredA : ((fun e => !(isNetAsset e)) ∘
        setRatio (q + totalStockAssets entries sd fx)) = (fun e => !(isNetAsset e)) :=
      funext fun e => rfl
    rw [List.filter_map, hpredA, List.map_map, List.length_map]
    have hvals : ((updateFirst isNetAsset (setNA (q + totalStockAssets entries sd fx))
          ((updateFirst isCash (setNA q) entries).map (procStock sd fx))).filter
          (fun e => !(isNetAsset e))).map
          ((fun e => (e.new_ratio).getD 0) ∘ setRatio (q + totalStockAssets entries sd fx))
        = (((updateFirst isNetAsset (setNA (q + totalStockAssets entries sd fx))
          ((updateFirst isCash (setNA q) entries).map (procStock sd fx))).filter
          (fun e => !(isNetAsset e))).map
          (fun e => (e.new_assets).getD 0 / (q + totalStockAssets entries sd fx))).map
          (fun x => pyRound x 4) := by
      rw [List.map_map]
      apply List.map_congr_left
      intro e _
      simp [Function.comp, setRatio, hnz]
    rw [hvals]
    have hraw : (((updateFirst isNetAsset (setNA (q + totalStockAssets entries sd fx))
          ((updateFirst isCash (setNA q) entries).map (procStock sd fx))).filter
          (fun e => !(isNetAsset e))).map
          (fun e => (e.new_assets).getD 0 / (q + totalStockAssets entries sd fx))).sum = 1 := by
      rw [sum_map_div]
      have := nonNetSum_valued entries sd fx q c hwf hfresh hcash
      rw [nonNetSum] at this
      rw [this]
      exact div_self hnz
    have hbound := sum_pyRound_bound
      (((updateFirst isNetAsset (setNA (q + totalStockAssets entries sd fx))
          ((updateFirst isCash (setNA q) entries).map (procStock sd fx))).filter
          (fun e => !(isNetAsset e))).map
          (fun e => (e.new_assets).getD 0 / (q + totalStockAssets entries sd fx))) 4
    rw [hraw, List.length_map] at hbound
    have hnum : (1 : ℚ) / (2 * 10 ^ 4) = 1 / 20000 := by norm_num
    rw [hnum] at hbound
    calc |((((updateFirst isNetAsset (setNA (q + totalStockAssets entries sd fx))
          ((updateFirst isCash (setNA q) entries).map (procStock sd fx))).filter
          (fun e => !(isNetAsset e))).map
          (fun e => (e.new_assets).getD 0 / (q + totalStockAssets entries sd fx))).map
          (fun x => pyRound x 4)).sum - 1|
        ≤ (((updateFirst isNetAsset (setNA (q + totalStockAssets entries sd fx))
          ((updateFirst isCash (setNA q) entries).map (procStock sd fx))).filter
          (fun e => !(isNetAsset e))).length : ℚ) * (1 / 20000) := hbound
      _ = (((updateFirst isNetAsset (setNA (q + totalStockAssets entries sd fx))
          ((updateFirst isCash (setNA q) entries).map (procStock sd fx))).filter
          (fun e => !(isNetAsset e))).length : ℚ) / 20000 := by ring

theorem ratio_normalization_witness :
    |(((valuedOf exEntries exSd [] 10000).filter (fun e => !(isNetAsset e))).map
        (fun e => (e.new_ratio).getD 0)).sum - 1|
      ≤ (((valuedOf exEntries exSd [] 10000).filter
          (fun e => !(isNetAsset e))).length : ℚ) / 20000 := by
  have hmain := ratio_normalization exEntries exSd []
    { id := "c", name := CASH_NAME, is_stock := false, shares := PyVal.num 0,
      current_assets := PyVal.num 10000 } 10000
    (by decide) (by decide) (by decide) rfl (by decide)
    (valuedOf exEntries exSd [] 10000)
    (10000 + totalStockAssets exEntries exSd [])
    (calcAssetsE_spec exEntries exSd []
      { id := "c", name := CASH_NAME, is_stock := false, shares := PyVal.num 0,
        current_assets := PyVal.num 10000 } 10000 (by decide) rfl (by decide))
  refine hmain.2 ?_
  have ht : totalStockAssets exEntries exSd [] = 1500 := by
    simp [totalStockAssets, contribOf, exEntries, exSd, dget, pyNumD, isCash, isNetAsset]
    norm_num
  rw [ht]
  norm_num
